import Mathlib

/-!
Shallow embedding of the client-side message-cache reconciliation engine of the
chat application (a React/Apollo front end).  The definitions below are direct
translations of the TypeScript source:

* `upsertMessageInCache`, `removeTempMessagesByText` from
  `src/widgets/chat/lib/cache-utils.ts`;
* the pagination `merge` field policy (`mergeMessagePages`) from the cache
  policy module;
* the new-message counter and submit guard of `src/widgets/chat/hooks/useChat.ts`;
* the subscription handlers of `src/widgets/chat/hooks/useMessageSubscriptions.ts`
  (`subsHandleNewMessage` / `subsHandleUpdatedMessage`) and of the
  `lib/hooks` variant, which delegates both streams to `upsertMessageInCache`;
* the `sendMessage` guard of the `lib/hooks` `useSendMessage`.

Modelling conventions: an Apollo cache read of the messages query yields the
page or `null`, so the cache state is `Option MessagePage`; the functions map
it to the state after the handler ran (`none` stays `none`: the handler returns
without writing).  The `updatedAt` ISO-8601 string is compared in the source
only through `new Date(...)`, i.e. through the instant it denotes, so it is
embedded as the parsed instant (`Int`, epoch milliseconds); `<` and `>=` on
`Date` objects coincide with `<` and `>=` on these instants for valid
timestamps.  JavaScript `String.prototype.trim` and `startsWith` are embedded
as the executable `jsTrim` and `jsStartsWith` on the character list of the
string, and the truthiness test on an optional cursor string (`args?.after`)
as `jsTruthyStr`, which is false exactly on `undefined`/absent and on the
empty string.
-/

inductive MessageStatus where
  | Sending
  | Sent
  | Read
deriving DecidableEq, Repr

inductive MessageSender where
  | Admin
  | Customer
deriving DecidableEq, Repr

/-- A message record; `updatedAt` is the instant denoted by the ISO-8601
`updatedAt` string of the source (epoch milliseconds). -/
structure Message where
  id : String
  text : String
  status : MessageStatus
  updatedAt : Int
  sender : MessageSender
deriving DecidableEq, Repr

/-- A pagination edge: a message paired with its opaque cursor. -/
structure MessageEdge where
  node : Message
  cursor : String
deriving DecidableEq, Repr

structure MessagePageInfo where
  hasNextPage : Bool
  hasPreviousPage : Bool
  startCursor : Option String
  endCursor : Option String
deriving DecidableEq, Repr

/-- The messages page stored in the cache: ordered edges plus page info. -/
structure MessagePage where
  edges : List MessageEdge
  pageInfo : MessagePageInfo
deriving DecidableEq, Repr

/-- Character-list core of JavaScript `startsWith`. -/
def startsWithAux : List Char → List Char → Bool
  | [], _ => true
  | _ :: _, [] => false
  | c :: cs, d :: ds => c == d && startsWithAux cs ds

/-- JavaScript `s.startsWith(pre)`. -/
def jsStartsWith (s pre : String) : Bool :=
  startsWithAux pre.data s.data

/-- JavaScript `s.trim()`: strip whitespace from both ends. -/
def jsTrim (s : String) : String :=
  String.mk (((s.data.dropWhile Char.isWhitespace).reverse.dropWhile
    Char.isWhitespace).reverse)

/-- Truthiness of an optional string (`args?.after` in the merge policy):
`undefined`, `null` and the empty string are falsy. -/
def jsTruthyStr : Option String → Bool
  | none => false
  | some s => !(s == "")

/-- The edge synthesized for an inserted message: cursor is deterministically
derived from the id, as in the source (`cursor_${message.id}`). -/
def mkEdge (message : Message) : MessageEdge :=
  { node := message, cursor := "cursor_" ++ message.id }

/-- Translation of `upsertMessageInCache` (cache-utils.ts).  Reads the page
(`none` stays `none`), locates the first edge whose `node.id` equals the
incoming id (`findIndex`), appends a fresh edge when absent, returns the page
unchanged when the incoming `updatedAt` is strictly older than the stored one,
and otherwise replaces the node at that index in place. -/
def upsertMessageInCache (cache : Option MessagePage) (message : Message) :
    Option MessagePage :=
  match cache with
  | none => none
  | some page =>
    match page.edges.findIdx? (fun e => e.node.id == message.id) with
    | none => some { page with edges := page.edges ++ [mkEdge message] }
    | some index =>
      match page.edges[index]? with
      | none => some page
      | some existing =>
        if message.updatedAt < existing.node.updatedAt then
          some page
        else
          some { page with
            edges := page.edges.set index { existing with node := message } }

/-- The edge predicate of `removeTempMessagesByText`: a temporary record
(`temp-` id) whose text equals the submitted text. -/
def tempMatches (text : String) (e : MessageEdge) : Bool :=
  jsStartsWith e.node.id "temp-" && e.node.text == text

/-- Translation of `removeTempMessagesByText` (cache-utils.ts): filter out
every temp edge carrying the submitted text; when nothing was filtered the
function returns early without writing. -/
def removeTempMessagesByText (cache : Option MessagePage) (text : String) :
    Option MessagePage :=
  match cache with
  | none => none
  | some page =>
    let filteredEdges := page.edges.filter (fun e => !(tempMatches text e))
    if filteredEdges.length = page.edges.length then some page
    else some { page with edges := filteredEdges }

/-- Whether `removeTempMessagesByText` reaches its `cache.writeQuery` call:
false when the cache read is `null` or when no edge was filtered out. -/
def removeTempWrites (cache : Option MessagePage) (text : String) : Bool :=
  match cache with
  | none => false
  | some page =>
    let filteredEdges := page.edges.filter (fun e => !(tempMatches text e))
    decide (filteredEdges.length ≠ page.edges.length)

/-- The `after` / `before` variables of the messages field query, as seen by
the merge policy through `args`. -/
structure MergeArgs where
  after : Option String
  before : Option String
deriving DecidableEq, Repr

/-- Translation of the `messagesFieldPolicy.merge` function: no existing page
means the incoming page verbatim; a truthy `after` argument appends the
incoming edges and takes the incoming pageInfo; a truthy `before` argument
prepends the incoming edges and keeps `hasNextPage` / `endCursor` from the
existing pageInfo; otherwise (first load or full reload) the incoming page. -/
def mergeMessagePages (existing : Option MessagePage) (incoming : MessagePage)
    (args : Option MergeArgs) : MessagePage :=
  match existing with
  | none => incoming
  | some ex =>
    if jsTruthyStr (args.bind MergeArgs.after) then
      { incoming with
        edges := ex.edges ++ incoming.edges
        pageInfo := incoming.pageInfo }
    else if jsTruthyStr (args.bind MergeArgs.before) then
      { incoming with
        edges := incoming.edges ++ ex.edges
        pageInfo := { incoming.pageInfo with
          hasNextPage := ex.pageInfo.hasNextPage
          endCursor := ex.pageInfo.endCursor } }
    else incoming

/-- The scroll / notification state of `useChat`. -/
structure ChatNotifyState where
  isAtBottom : Bool
  newMessagesCount : Nat
deriving DecidableEq, Repr

/-- Translation of the `onMessageAdded` callback of `useChat`: increment the
counter when the viewport is not at the bottom.  The callback is declared as
`() => ...` in the source: the event message (in particular its `sender`)
is never consulted, which the unused parameter makes explicit. -/
def chatOnMessageAdded (st : ChatNotifyState) (_message : Message) :
    ChatNotifyState :=
  if !st.isAtBottom then
    { st with newMessagesCount := st.newMessagesCount + 1 }
  else st

/-- Translation of `handleAtBottomChange` of `useChat`: store the new
at-bottom flag and reset the counter when the bottom is reached with a
positive counter. -/
def chatHandleAtBottomChange (st : ChatNotifyState) (atBottom : Bool) :
    ChatNotifyState :=
  let st1 := { st with isAtBottom := atBottom }
  if atBottom && decide (0 < st.newMessagesCount) then
    { st1 with newMessagesCount := 0 }
  else st1

/-- Translation of `handleNewMessage` of
`src/widgets/chat/hooks/useMessageSubscriptions.ts`: when the id is already
present in the cache the handler does nothing at all; otherwise it appends a
new edge at the end. -/
def subsHandleNewMessage (cache : Option MessagePage) (newMessage : Message) :
    Option MessagePage :=
  match cache with
  | none => none
  | some page =>
    if page.edges.any (fun e => e.node.id == newMessage.id) then some page
    else some { page with edges := page.edges ++ [mkEdge newMessage] }

/-- Translation of `handleUpdatedMessage` of
`src/widgets/chat/hooks/useMessageSubscriptions.ts`: locate the edge by id
(no-op when absent), discard a strictly older incoming message, otherwise
replace the node at that index in place. -/
def subsHandleUpdatedMessage (cache : Option MessagePage)
    (updatedMessage : Message) : Option MessagePage :=
  match cache with
  | none => none
  | some page =>
    match page.edges.findIdx? (fun e => e.node.id == updatedMessage.id) with
    | none => some page
    | some index =>
      match page.edges[index]? with
      | none => some page
      | some existing =>
        if updatedMessage.updatedAt < existing.node.updatedAt then
          some page
        else
          some { page with
            edges :=
              page.edges.set index { existing with node := updatedMessage } }

/-- Translation of `handleNewMessage` of the `lib/hooks` variant of
`useMessageSubscriptions`: the created stream delegates to
`upsertMessageInCache`. -/
def libSubsHandleNewMessage (cache : Option MessagePage)
    (newMessage : Message) : Option MessagePage :=
  upsertMessageInCache cache newMessage

/-- Translation of `handleUpdatedMessage` of the `lib/hooks` variant of
`useMessageSubscriptions`: the updated stream delegates to
`upsertMessageInCache`. -/
def libSubsHandleUpdatedMessage (cache : Option MessagePage)
    (updatedMessage : Message) : Option MessagePage :=
  upsertMessageInCache cache updatedMessage

/-- Translation of the guard of `sendMessage` in the `lib/hooks`
`useSendMessage`: `none` models the early `return null` on empty trimmed
text (the mutation is never invoked, so the cache is untouched);
`some t` models invoking the mutation with trimmed text `t`. -/
def useSendMessageSend (text : String) : Option String :=
  if jsTrim text == "" then none else some (jsTrim text)

/-- Translation of the guard of `sendMessage` in `useChat`: `none` models the
early `return` on empty trimmed text (the underlying send operation is not
invoked); `some t` models calling it with trimmed text `t`. -/
def chatSendMessage (text : String) : Option String :=
  let trimmedText := jsTrim text
  if trimmedText == "" then none else some trimmedText

/-- Applying a finite sequence of upserts to the cache, in order. -/
def upsertAll (cache : Option MessagePage) (ms : List Message) :
    Option MessagePage :=
  ms.foldl upsertMessageInCache cache

/-- The `updatedAt` instant stored for an id: the one of the first edge whose
node carries the id, if any. -/
def storedUpdatedAt (cache : Option MessagePage) (mid : String) : Option Int :=
  match cache with
  | none => none
  | some page =>
    (page.edges.find? (fun e => e.node.id == mid)).map
      (fun e => e.node.updatedAt)

/-- The maximum `updatedAt` among a list of messages (`none` for the empty
list). -/
def maxUpdatedAt : List Message → Option Int
  | [] => none
  | m :: ms => some (ms.foldl (fun a x => max a x.updatedAt) m.updatedAt)

/-- Recursive form of the edge transformation of `upsertMessageInCache`:
the first edge matching the id is replaced (or kept when the incoming message
is strictly older); when no edge matches, a synthesized edge is appended at
the end.  `upsertEdges_spec` proves it equal to the `findIndex`-based source
translation. -/
def upsertEdges (message : Message) : List MessageEdge → List MessageEdge
  | [] => [mkEdge message]
  | e :: es =>
    if e.node.id = message.id then
      (if message.updatedAt < e.node.updatedAt then e
       else { e with node := message }) :: es
    else e :: upsertEdges message es

/-- Recursive form of the edge transformation of `subsHandleUpdatedMessage`:
like `upsertEdges` but without the append when the id is absent. -/
def replaceFirstEdge (message : Message) : List MessageEdge → List MessageEdge
  | [] => []
  | e :: es =>
    if e.node.id = message.id then
      (if message.updatedAt < e.node.updatedAt then e
       else { e with node := message }) :: es
    else e :: replaceFirstEdge message es

/-- The `updatedAt` instant stored for an id in an edge list (the first
matching edge). -/
def storedEdgeUpdatedAt (es : List MessageEdge) (mid : String) : Option Int :=
  (es.find? (fun e => e.node.id == mid)).map (fun e => e.node.updatedAt)

/- Concrete values used by witnesses and counterexamples. -/

def pageInfoW : MessagePageInfo :=
  { hasNextPage := false, hasPreviousPage := false,
    startCursor := some "cursor_1", endCursor := some "cursor_1" }

def msgHello : Message :=
  { id := "1", text := "hello", status := .Sent, updatedAt := 10,
    sender := .Customer }

def msgHelloFresh : Message :=
  { id := "1", text := "hello there", status := .Read, updatedAt := 20,
    sender := .Customer }

def msgHelloStale : Message :=
  { id := "1", text := "old hello", status := .Sent, updatedAt := 3,
    sender := .Customer }

def msgHelloTie : Message :=
  { id := "1", text := "tied hello", status := .Read, updatedAt := 10,
    sender := .Customer }

def msgTwo : Message :=
  { id := "2", text := "second", status := .Sent, updatedAt := 12,
    sender := .Admin }

def pageW : MessagePage :=
  { edges := [mkEdge msgHello], pageInfo := pageInfoW }

def msgSeqA : Message :=
  { id := "9", text := "s1", status := .Sent, updatedAt := 5,
    sender := .Customer }

def msgSeqB : Message :=
  { id := "9", text := "s2", status := .Sent, updatedAt := 3,
    sender := .Customer }

def msgSeqC : Message :=
  { id := "9", text := "s3", status := .Read, updatedAt := 7,
    sender := .Customer }

def msgPermHi : Message :=
  { id := "7", text := "hi", status := .Sent, updatedAt := 4,
    sender := .Customer }

def msgTempHi : Message :=
  { id := "temp-1", text := "hi", status := .Sending, updatedAt := 1,
    sender := .Admin }

def msgConfirmedHi : Message :=
  { id := "42", text := "hi", status := .Sent, updatedAt := 5,
    sender := .Admin }

def pagePermHi : MessagePage :=
  { edges := [mkEdge msgPermHi], pageInfo := pageInfoW }

def pageTempHi : MessagePage :=
  { edges := [mkEdge msgTempHi], pageInfo := pageInfoW }

def msgOldOne : Message :=
  { id := "1", text := "first version", status := .Sent, updatedAt := 1,
    sender := .Customer }

def msgNewOne : Message :=
  { id := "1", text := "second version", status := .Read, updatedAt := 5,
    sender := .Customer }

def pageC8 : MessagePage :=
  { edges := [mkEdge msgOldOne], pageInfo := pageInfoW }

def msgAdminW : Message :=
  { id := "3", text := "admin message", status := .Sent, updatedAt := 30,
    sender := .Admin }

def mkPlainMsg (mid : String) : Message :=
  { id := mid, text := "m" ++ mid, status := .Sent, updatedAt := 1,
    sender := .Customer }

def pageInfoA : MessagePageInfo :=
  { hasNextPage := true, hasPreviousPage := false,
    startCursor := some "cursor_A0", endCursor := some "cursor_A1" }

def pageInfoB : MessagePageInfo :=
  { hasNextPage := false, hasPreviousPage := true,
    startCursor := some "cursor_B0", endCursor := some "cursor_B2" }

def pageInfoC : MessagePageInfo :=
  { hasNextPage := true, hasPreviousPage := true,
    startCursor := some "cursor_C0", endCursor := some "cursor_C1" }

def pageA : MessagePage :=
  { edges := [mkEdge (mkPlainMsg "A0"), mkEdge (mkPlainMsg "A1")],
    pageInfo := pageInfoA }

def pageB : MessagePage :=
  { edges := [mkEdge (mkPlainMsg "B0"), mkEdge (mkPlainMsg "B1"),
      mkEdge (mkPlainMsg "B2")],
    pageInfo := pageInfoB }

def pageC : MessagePage :=
  { edges := [mkEdge (mkPlainMsg "C0"), mkEdge (mkPlainMsg "C1")],
    pageInfo := pageInfoC }

def argsAfterW : Option MergeArgs :=
  some { after := some "cursor_A1", before := none }

def argsBeforeW : Option MergeArgs :=
  some { after := none, before := some "cursor_A0" }

/-- The edge-list transformation of `upsertMessageInCache`, factored out of the
cache wrapper (findIndex, then append / stale-discard / in-place set). -/
def upsertEdgesIdx (message : Message) (es : List MessageEdge) :
    List MessageEdge :=
  match es.findIdx? (fun e => e.node.id == message.id) with
  | none => es ++ [mkEdge message]
  | some index =>
    match es[index]? with
    | none => es
    | some existing =>
      if message.updatedAt < existing.node.updatedAt then es
      else es.set index { existing with node := message }

/-- The edge-list transformation of `subsHandleUpdatedMessage`, factored out of
the cache wrapper (findIndex, then no-op / stale-discard / in-place set). -/
def replaceFirstEdgeIdx (message : Message) (es : List MessageEdge) :
    List MessageEdge :=
  match es.findIdx? (fun e => e.node.id == message.id) with
  | none => es
  | some index =>
    match es[index]? with
    | none => es
    | some existing =>
      if message.updatedAt < existing.node.updatedAt then es
      else es.set index { existing with node := message }

theorem upsertMessageInCache_some (page : MessagePage) (message : Message) :
    upsertMessageInCache (some page) message =
      some { page with edges := upsertEdgesIdx message page.edges } := by
  cases hfind : page.edges.findIdx? (fun e => e.node.id == message.id) with
  | none => simp [upsertMessageInCache, upsertEdgesIdx, hfind]
  | some index =>
    cases hget : page.edges[index]? with
    | none => simp [upsertMessageInCache, upsertEdgesIdx, hfind, hget]
    | some existing =>
      by_cases hlt : message.updatedAt < existing.node.updatedAt <;>
        simp [upsertMessageInCache, upsertEdgesIdx, hfind, hget, hlt]

theorem subsHandleUpdatedMessage_some (page : MessagePage) (message : Message) :
    subsHandleUpdatedMessage (some page) message =
      some { page with edges := replaceFirstEdgeIdx message page.edges } := by
  cases hfind : page.edges.findIdx? (fun e => e.node.id == message.id) with
  | none => simp [subsHandleUpdatedMessage, replaceFirstEdgeIdx, hfind]
  | some index =>
    cases hget : page.edges[index]? with
    | none => simp [subsHandleUpdatedMessage, replaceFirstEdgeIdx, hfind, hget]
    | some existing =>
      by_cases hlt : message.updatedAt < existing.node.updatedAt <;>
        simp [subsHandleUpdatedMessage, replaceFirstEdgeIdx, hfind, hget, hlt]

theorem upsertEdgesIdx_eq (message : Message) :
    ∀ es : List MessageEdge, upsertEdgesIdx message es = upsertEdges message es
  | [] => rfl
  | e :: es => by
    by_cases h : e.node.id = message.id
    · by_cases hlt : message.updatedAt < e.node.updatedAt <;>
        simp [upsertEdgesIdx, upsertEdges, List.findIdx?_cons, h, hlt]
    · have hbeq : (e.node.id == message.id) = false := by
        simp [h]
      have ih := upsertEdgesIdx_eq message es
      cases hfind : es.findIdx? (fun x => x.node.id == message.id) with
      | none =>
        have ih' : es ++ [mkEdge message] = upsertEdges message es := by
          rw [← ih]; simp [upsertEdgesIdx, hfind]
        simp [upsertEdgesIdx, upsertEdges, List.findIdx?_cons, hbeq,
          List.findIdx?_succ, hfind, h, ih']
      | some j =>
        cases hget : es[j]? with
        | none =>
          have ih' : es = upsertEdges message es := by
            rw [← ih]; simp [upsertEdgesIdx, hfind, hget]
          simp [upsertEdgesIdx, upsertEdges, List.findIdx?_cons, hbeq,
            List.findIdx?_succ, hfind, hget, h, ← ih']
        | some existing =>
          by_cases hlt : message.updatedAt < existing.node.updatedAt
          · have ih' : es = upsertEdges message es := by
              rw [← ih]; simp [upsertEdgesIdx, hfind, hget, hlt]
            simp [upsertEdgesIdx, upsertEdges, List.findIdx?_cons, hbeq,
              List.findIdx?_succ, hfind, hget, hlt, h, ← ih']
          · have ih' : es.set j { existing with node := message } =
                upsertEdges message es := by
              rw [← ih]; simp [upsertEdgesIdx, hfind, hget, hlt]
            simp [upsertEdgesIdx, upsertEdges, List.findIdx?_cons, hbeq,
              List.findIdx?_succ, hfind, hget, hlt, h, List.set_cons_succ, ih']

theorem replaceFirstEdgeIdx_eq (message : Message) :
    ∀ es : List MessageEdge,
      replaceFirstEdgeIdx message es = replaceFirstEdge message es
  | [] => rfl
  | e :: es => by
    by_cases h : e.node.id = message.id
    · by_cases hlt : message.updatedAt < e.node.updatedAt <;>
        simp [replaceFirstEdgeIdx, replaceFirstEdge, List.findIdx?_cons, h, hlt]
    · have hbeq : (e.node.id == message.id) = false := by
        simp [h]
      have ih := replaceFirstEdgeIdx_eq message es
      cases hfind : es.findIdx? (fun x => x.node.id == message.id) with
      | none =>
        have ih' : es = replaceFirstEdge message es := by
          rw [← ih]; simp [replaceFirstEdgeIdx, hfind]
        simp [replaceFirstEdgeIdx, replaceFirstEdge, List.findIdx?_cons, hbeq,
          List.findIdx?_succ, hfind, h, ← ih']
      | some j =>
        cases hget : es[j]? with
        | none =>
          have ih' : es = replaceFirstEdge message es := by
            rw [← ih]; simp [replaceFirstEdgeIdx, hfind, hget]
          simp [replaceFirstEdgeIdx, replaceFirstEdge, List.findIdx?_cons, hbeq,
            List.findIdx?_succ, hfind, hget, h, ← ih']
        | some existing =>
          by_cases hlt : message.updatedAt < existing.node.updatedAt
          · have ih' : es = replaceFirstEdge message es := by
              rw [← ih]; simp [replaceFirstEdgeIdx, hfind, hget, hlt]
            simp [replaceFirstEdgeIdx, replaceFirstEdge, List.findIdx?_cons,
              hbeq, List.findIdx?_succ, hfind, hget, hlt, h, ← ih']
          · have ih' : es.set j { existing with node := message } =
                replaceFirstEdge message es := by
              rw [← ih]; simp [replaceFirstEdgeIdx, hfind, hget, hlt]
            simp [replaceFirstEdgeIdx, replaceFirstEdge, List.findIdx?_cons,
              hbeq, List.findIdx?_succ, hfind, hget, hlt, h,
              List.set_cons_succ, ih']

theorem upsertEdges_of_absent (message : Message) :
    ∀ es : List MessageEdge, (∀ e ∈ es, e.node.id ≠ message.id) →
      upsertEdges message es = es ++ [mkEdge message]
  | [] => fun _ => rfl
  | e :: es => fun h => by
    have h1 : e.node.id ≠ message.id := h e (by simp)
    have ih := upsertEdges_of_absent message es
      (fun x hx => h x (by simp [hx]))
    simp [upsertEdges, h1, ih]

theorem upsertEdges_decomp (message : Message) :
    ∀ (l1 : List MessageEdge) (e : MessageEdge) (l2 : List MessageEdge),
      (∀ x ∈ l1, x.node.id ≠ message.id) → e.node.id = message.id →
      upsertEdges message (l1 ++ e :: l2) =
        l1 ++ (if message.updatedAt < e.node.updatedAt then e
               else { e with node := message }) :: l2
  | [], e, l2 => fun _ he => by
    by_cases hlt : message.updatedAt < e.node.updatedAt <;>
      simp [upsertEdges, he, hlt]
  | x :: l1, e, l2 => fun h he => by
    have hx : x.node.id ≠ message.id := h x (by simp)
    have ih := upsertEdges_decomp message l1 e l2
      (fun y hy => h y (by simp [hy])) he
    simp [upsertEdges, hx, ih]

theorem replaceFirstEdge_decomp (message : Message) :
    ∀ (l1 : List MessageEdge) (e : MessageEdge) (l2 : List MessageEdge),
      (∀ x ∈ l1, x.node.id ≠ message.id) → e.node.id = message.id →
      replaceFirstEdge message (l1 ++ e :: l2) =
        l1 ++ (if message.updatedAt < e.node.updatedAt then e
               else { e with node := message }) :: l2
  | [], e, l2 => fun _ he => by
    by_cases hlt : message.updatedAt < e.node.updatedAt <;>
      simp [replaceFirstEdge, he, hlt]
  | x :: l1, e, l2 => fun h he => by
    have hx : x.node.id ≠ message.id := h x (by simp)
    have ih := replaceFirstEdge_decomp message l1 e l2
      (fun y hy => h y (by simp [hy])) he
    simp [replaceFirstEdge, hx, ih]

theorem upsertEdges_idem (message : Message) :
    ∀ es : List MessageEdge,
      upsertEdges message (upsertEdges message es) = upsertEdges message es
  | [] => by
    simp [upsertEdges, mkEdge, lt_irrefl]
  | e :: es => by
    by_cases h : e.node.id = message.id
    · by_cases hlt : message.updatedAt < e.node.updatedAt
      · simp [upsertEdges, h, hlt]
      · simp [upsertEdges, h, hlt, lt_irrefl]
    · simp [upsertEdges, h, upsertEdges_idem message es]

theorem upsertEdges_filter_ne (message : Message) :
    ∀ es : List MessageEdge,
      (upsertEdges message es).filter (fun e => !(e.node.id == message.id)) =
        es.filter (fun e => !(e.node.id == message.id))
  | [] => by simp [upsertEdges, mkEdge]
  | e :: es => by
    by_cases h : e.node.id = message.id
    · by_cases hlt : message.updatedAt < e.node.updatedAt <;>
        simp [upsertEdges, h, hlt]
    · simp [upsertEdges, h, upsertEdges_filter_ne message es]

theorem exists_first_match (p : MessageEdge → Bool) :
    ∀ es : List MessageEdge,
      (∀ e ∈ es, p e = false) ∨
      ∃ l1 e l2, es = l1 ++ e :: l2 ∧ (∀ x ∈ l1, p x = false) ∧ p e = true
  | [] => Or.inl (by simp)
  | e :: es => by
    by_cases h : p e
    · exact Or.inr ⟨[], e, es, by simp, by simp, h⟩
    · rcases exists_first_match p es with hall | ⟨l1, x, l2, heq, hl1, hx⟩
      · refine Or.inl ?_
        intro y hy
        rcases List.mem_cons.mp hy with rfl | hy'
        · simpa using h
        · exact hall y hy'
      · refine Or.inr ⟨e :: l1, x, l2, by simp [heq], ?_, hx⟩
        intro y hy
        rcases List.mem_cons.mp hy with rfl | hy'
        · simpa using h
        · exact hl1 y hy'

theorem storedEdgeUpdatedAt_upsert_mono (message : Message) (mid : String) :
    ∀ (es : List MessageEdge) (v : Int),
      storedEdgeUpdatedAt es mid = some v →
      ∃ w, storedEdgeUpdatedAt (upsertEdges message es) mid = some w ∧ v ≤ w
  | [], v => by simp [storedEdgeUpdatedAt]
  | e :: es, v => fun hv => by
    by_cases h : e.node.id = message.id
    · by_cases hlt : message.updatedAt < e.node.updatedAt
      · exact ⟨v, by simpa [upsertEdges, h, hlt] using hv, le_refl v⟩
      · by_cases hm : e.node.id = mid
        · have hv' : e.node.updatedAt = v := by
            simpa [storedEdgeUpdatedAt, List.find?_cons_of_pos,
              show (e.node.id == mid) = true by simp [hm]] using hv
          refine ⟨message.updatedAt, ?_, by omega⟩
          have hm2 : (message.id == mid) = true := by
            simp [← h, hm]
          simp [upsertEdges, h, hlt, storedEdgeUpdatedAt,
            List.find?_cons_of_pos, hm2]
        · have hv' : storedEdgeUpdatedAt es mid = some v := by
            simpa [storedEdgeUpdatedAt, List.find?_cons_of_neg,
              show ¬ (e.node.id == mid) = true by simp [hm]] using hv
          have hm2 : ¬ (message.id == mid) = true := by
            simp [← h, hm]
          exact ⟨v, by
            simpa [upsertEdges, h, hlt, storedEdgeUpdatedAt,
              List.find?_cons_of_neg, hm2] using hv', le_refl v⟩
    · by_cases hm : e.node.id = mid
      · have hv' : e.node.updatedAt = v := by
          simpa [storedEdgeUpdatedAt, List.find?_cons_of_pos,
            show (e.node.id == mid) = true by simp [hm]] using hv
        exact ⟨v, by
          simpa [upsertEdges, h, storedEdgeUpdatedAt,
            List.find?_cons_of_pos,
            show (e.node.id == mid) = true by simp [hm]] using hv, le_refl v⟩
      · have hv' : storedEdgeUpdatedAt es mid = some v := by
          simpa [storedEdgeUpdatedAt, List.find?_cons_of_neg,
            show ¬ (e.node.id == mid) = true by simp [hm]] using hv
        rcases storedEdgeUpdatedAt_upsert_mono message mid es v hv' with
          ⟨w, hw, hvw⟩
        exact ⟨w, by
          simpa [upsertEdges, h, storedEdgeUpdatedAt,
            List.find?_cons_of_neg,
            show ¬ (e.node.id == mid) = true by simp [hm]] using hw, hvw⟩

theorem storedEdgeUpdatedAt_upsert_max (message : Message) (mid : String)
    (hid : message.id = mid) :
    ∀ (es : List MessageEdge) (v : Int),
      storedEdgeUpdatedAt es mid = some v →
      storedEdgeUpdatedAt (upsertEdges message es) mid =
        some (max v message.updatedAt)
  | [], v => by simp [storedEdgeUpdatedAt]
  | e :: es, v => fun hv => by
    by_cases h : e.node.id = message.id
    · have hm : (e.node.id == mid) = true := by simp [h, hid]
      have hv' : e.node.updatedAt = v := by
        simpa [storedEdgeUpdatedAt, List.find?_cons_of_pos, hm] using hv
      by_cases hlt : message.updatedAt < e.node.updatedAt
      · have : max v message.updatedAt = v := by omega
        rw [this]
        simpa [upsertEdges, h, hlt, storedEdgeUpdatedAt,
          List.find?_cons_of_pos, hm] using hv
      · have : max v message.updatedAt = message.updatedAt := by omega
        rw [this]
        have hm2 : (message.id == mid) = true := by simp [hid]
        simp [upsertEdges, h, hlt, storedEdgeUpdatedAt,
          List.find?_cons_of_pos, hm2]
    · have hm : ¬ (e.node.id == mid) = true := by
        simp [← hid] at h ⊢
        exact h
      have hv' : storedEdgeUpdatedAt es mid = some v := by
        simpa [storedEdgeUpdatedAt, List.find?_cons_of_neg, hm] using hv
      have ih := storedEdgeUpdatedAt_upsert_max message mid hid es v hv'
      simpa [upsertEdges, h, storedEdgeUpdatedAt,
        List.find?_cons_of_neg, hm] using ih

theorem storedEdgeUpdatedAt_upsert_absent (message : Message) (mid : String)
    (hid : message.id = mid) (es : List MessageEdge)
    (habs : ∀ e ∈ es, e.node.id ≠ mid) :
    storedEdgeUpdatedAt (upsertEdges message es) mid =
      some message.updatedAt := by
  rw [upsertEdges_of_absent message es
    (fun e he => by rw [hid]; exact habs e he)]
  have h1 : es.find? (fun e => e.node.id == mid) = none := by
    rw [List.find?_eq_none]
    intro e he
    simp [habs e he]
  have h2 : (mkEdge message).node.id == mid := by simp [mkEdge, hid]
  simp [storedEdgeUpdatedAt, List.find?_append, h1, mkEdge, hid]

theorem upsertAll_mono_aux :
    ∀ (ms : List Message) (cache : Option MessagePage) (mid : String)
      (v : Int), storedUpdatedAt cache mid = some v →
      ∃ w, storedUpdatedAt (upsertAll cache ms) mid = some w ∧ v ≤ w
  | [] => fun _ _ v hv => ⟨v, hv, le_refl v⟩
  | m :: ms => fun cache mid v hv => by
    cases cache with
    | none => simp [storedUpdatedAt] at hv
    | some page =>
      rcases storedEdgeUpdatedAt_upsert_mono m mid page.edges v hv with
        ⟨w1, hw1, hvw1⟩
      rcases upsertAll_mono_aux ms (upsertMessageInCache (some page) m) mid w1
        (by rw [upsertMessageInCache_some, upsertEdgesIdx_eq]; exact hw1) with
        ⟨w, hw, hw1w⟩
      exact ⟨w, hw, le_trans hvw1 hw1w⟩

theorem upsertAll_max_aux :
    ∀ (ms : List Message) (cache : Option MessagePage) (mid : String)
      (v : Int), storedUpdatedAt cache mid = some v →
      (∀ x ∈ ms, x.id = mid) →
      storedUpdatedAt (upsertAll cache ms) mid =
        some (ms.foldl (fun a x => max a x.updatedAt) v)
  | [] => fun _ _ v hv _ => hv
  | m :: ms => fun cache mid v hv hall => by
    cases cache with
    | none => simp [storedUpdatedAt] at hv
    | some page =>
      have hid : m.id = mid := hall m (by simp)
      have hstep := storedEdgeUpdatedAt_upsert_max m mid hid page.edges v hv
      exact upsertAll_max_aux ms (upsertMessageInCache (some page) m) mid
        (max v m.updatedAt)
        (by rw [upsertMessageInCache_some, upsertEdgesIdx_eq]; exact hstep)
        (fun x hx => hall x (by simp [hx]))

theorem removeTemp_some (page : MessagePage) (text : String) :
    ∃ page', removeTempMessagesByText (some page) text = some page' ∧
      page'.pageInfo = page.pageInfo ∧
      page'.edges = page.edges.filter (fun e => !(tempMatches text e)) := by
  by_cases hlen :
      (page.edges.filter (fun e => !(tempMatches text e))).length =
        page.edges.length
  · refine ⟨page, by simp [removeTempMessagesByText, hlen], rfl, ?_⟩
    exact (List.filter_eq_self.mpr (List.filter_length_eq_length.mp hlen)).symm
  · exact ⟨{ page with
        edges := page.edges.filter (fun e => !(tempMatches text e)) },
      by simp [removeTempMessagesByText, hlen], rfl, rfl⟩

/-- C1: upsert-by-freshness, for every cached page and incoming message:
if no edge carries the incoming id, a single new edge with cursor derived
from the id is appended at the end; if the (first) edge with that id stores a
strictly newer `updatedAt`, the page is left completely unchanged; if the
incoming `updatedAt` is greater than or equal to the stored one, the node at
that edge is replaced in place, position preserved. -/
theorem upsert_by_freshness_cases :
    (∀ (page : MessagePage) (m : Message),
      (∀ e ∈ page.edges, e.node.id ≠ m.id) →
        upsertMessageInCache (some page) m =
          some { page with edges := page.edges ++ [mkEdge m] }) ∧
    (∀ (page : MessagePage) (m : Message) (l1 : List MessageEdge)
        (e : MessageEdge) (l2 : List MessageEdge),
      page.edges = l1 ++ e :: l2 → (∀ x ∈ l1, x.node.id ≠ m.id) →
      e.node.id = m.id →
        (m.updatedAt < e.node.updatedAt →
          upsertMessageInCache (some page) m = some page) ∧
        (e.node.updatedAt ≤ m.updatedAt →
          upsertMessageInCache (some page) m =
            some { page with edges := l1 ++ { e with node := m } :: l2 })) := by
  constructor
  · intro page m h
    rw [upsertMessageInCache_some, upsertEdgesIdx_eq,
      upsertEdges_of_absent m page.edges h]
  · intro page m l1 e l2 hedges hl1 he
    constructor
    · intro hlt
      have h2 : upsertEdges m page.edges = page.edges := by
        rw [hedges, upsertEdges_decomp m l1 e l2 hl1 he, if_pos hlt]
      rw [upsertMessageInCache_some, upsertEdgesIdx_eq, h2]
    · intro hge
      have h2 : upsertEdges m page.edges = l1 ++ { e with node := m } :: l2 := by
        rw [hedges, upsertEdges_decomp m l1 e l2 hl1 he,
          if_neg (not_lt.mpr hge)]
      rw [upsertMessageInCache_some, upsertEdgesIdx_eq, h2]

theorem upsert_by_freshness_cases_witness :
    ((∀ e ∈ pageW.edges, e.node.id ≠ msgTwo.id) ∧
      upsertMessageInCache (some pageW) msgTwo =
        some { pageW with edges := pageW.edges ++ [mkEdge msgTwo] }) ∧
    (msgHelloStale.updatedAt < (mkEdge msgHello).node.updatedAt ∧
      upsertMessageInCache (some pageW) msgHelloStale = some pageW) ∧
    ((mkEdge msgHello).node.updatedAt ≤ msgHelloFresh.updatedAt ∧
      upsertMessageInCache (some pageW) msgHelloFresh =
        some { pageW with
          edges := [] ++ { mkEdge msgHello with node := msgHelloFresh } :: [] }) :=
  ⟨⟨by decide, upsert_by_freshness_cases.1 pageW msgTwo (by decide)⟩,
   ⟨by decide,
    (upsert_by_freshness_cases.2 pageW msgHelloStale [] (mkEdge msgHello) []
      (by decide) (by decide) (by decide)).1 (by decide)⟩,
   ⟨by decide,
    (upsert_by_freshness_cases.2 pageW msgHelloFresh [] (mkEdge msgHello) []
      (by decide) (by decide) (by decide)).2 (by decide)⟩⟩

/-- C3: upsert-by-freshness is idempotent for every cache state and message,
and on a timestamp tie the incoming message replaces the stored node
(greater-or-equal, not strictly-greater, triggers the replacement). -/
theorem upsert_idempotent_and_tie :
    (∀ (cache : Option MessagePage) (m : Message),
      upsertMessageInCache (upsertMessageInCache cache m) m =
        upsertMessageInCache cache m) ∧
    (∀ (page : MessagePage) (m : Message) (l1 : List MessageEdge)
        (e : MessageEdge) (l2 : List MessageEdge),
      page.edges = l1 ++ e :: l2 → (∀ x ∈ l1, x.node.id ≠ m.id) →
      e.node.id = m.id → e.node.updatedAt = m.updatedAt →
        upsertMessageInCache (some page) m =
          some { page with edges := l1 ++ { e with node := m } :: l2 }) := by
  constructor
  · intro cache m
    cases cache with
    | none => rfl
    | some page =>
      rw [upsertMessageInCache_some, upsertEdgesIdx_eq,
        upsertMessageInCache_some, upsertEdgesIdx_eq]
      show some { page with
        edges := upsertEdges m (upsertEdges m page.edges) } = _
      rw [upsertEdges_idem]
  · intro page m l1 e l2 hedges hl1 he htie
    have h2 : upsertEdges m page.edges = l1 ++ { e with node := m } :: l2 := by
      rw [hedges, upsertEdges_decomp m l1 e l2 hl1 he,
        if_neg (by omega : ¬ m.updatedAt < e.node.updatedAt)]
    rw [upsertMessageInCache_some, upsertEdgesIdx_eq, h2]

theorem upsert_idempotent_and_tie_witness :
    (upsertMessageInCache (upsertMessageInCache (some pageW) msgHelloFresh)
        msgHelloFresh =
      upsertMessageInCache (some pageW) msgHelloFresh) ∧
    ((mkEdge msgHello).node.updatedAt = msgHelloTie.updatedAt ∧
      upsertMessageInCache (some pageW) msgHelloTie =
        some { pageW with
          edges := [] ++ { mkEdge msgHello with node := msgHelloTie } :: [] }) :=
  ⟨upsert_idempotent_and_tie.1 (some pageW) msgHelloFresh,
   ⟨by decide,
    upsert_idempotent_and_tie.2 pageW msgHelloTie [] (mkEdge msgHello) []
      (by decide) (by decide) (by decide) (by decide)⟩⟩

/-- C4: freshness monotonicity.  Over any finite sequence of upserts the
stored `updatedAt` of an id never regresses below a value it once had; for
an id absent from the page a nonempty sequence of upserts for that id leaves
exactly the maximum `updatedAt` of the applied updates stored; and in
general the final value is the maximum of the initially stored instant and
the applied ones. -/
theorem freshness_monotonicity :
    (∀ (cache : Option MessagePage) (ms : List Message) (mid : String)
        (v : Int), storedUpdatedAt cache mid = some v →
      ∃ w, storedUpdatedAt (upsertAll cache ms) mid = some w ∧ v ≤ w) ∧
    (∀ (page : MessagePage) (mid : String) (ms : List Message),
      (∀ e ∈ page.edges, e.node.id ≠ mid) → (∀ x ∈ ms, x.id = mid) →
      ms ≠ [] →
        storedUpdatedAt (upsertAll (some page) ms) mid = maxUpdatedAt ms) ∧
    (∀ (cache : Option MessagePage) (mid : String) (ms : List Message)
        (v : Int),
      storedUpdatedAt cache mid = some v → (∀ x ∈ ms, x.id = mid) →
        storedUpdatedAt (upsertAll cache ms) mid =
          some (ms.foldl (fun a x => max a x.updatedAt) v)) := by
  refine ⟨?_, ?_, ?_⟩
  · intro cache ms mid v hv
    exact upsertAll_mono_aux ms cache mid v hv
  · intro page mid ms habs hall hne
    cases ms with
    | nil => exact absurd rfl hne
    | cons m rest =>
      have hid : m.id = mid := hall m (by simp)
      have hstep := storedEdgeUpdatedAt_upsert_absent m mid hid page.edges habs
      exact upsertAll_max_aux rest (upsertMessageInCache (some page) m) mid
        m.updatedAt
        (by rw [upsertMessageInCache_some, upsertEdgesIdx_eq]; exact hstep)
        (fun x hx => hall x (by simp [hx]))
  · intro cache mid ms v hv hall
    exact upsertAll_max_aux ms cache mid v hv hall

theorem freshness_monotonicity_witness :
    (storedUpdatedAt (some pageW) "1" = some 10 ∧
      ∃ w, storedUpdatedAt (upsertAll (some pageW) [msgHelloStale]) "1" =
        some w ∧ (10 : Int) ≤ w) ∧
    ((∀ e ∈ pageW.edges, e.node.id ≠ "9") ∧
      (∀ x ∈ [msgSeqA, msgSeqB, msgSeqC], x.id = "9") ∧
      ([msgSeqA, msgSeqB, msgSeqC] : List Message) ≠ [] ∧
      storedUpdatedAt (upsertAll (some pageW) [msgSeqA, msgSeqB, msgSeqC])
          "9" = maxUpdatedAt [msgSeqA, msgSeqB, msgSeqC]) ∧
    (storedUpdatedAt (some pageW) "1" = some 10 ∧
      storedUpdatedAt (upsertAll (some pageW) [msgHelloFresh]) "1" =
        some ([msgHelloFresh].foldl (fun a x => max a x.updatedAt) 10)) :=
  ⟨⟨by decide,
    freshness_monotonicity.1 (some pageW) [msgHelloStale] "1" 10 (by decide)⟩,
   ⟨by decide, by decide, by decide,
    freshness_monotonicity.2.1 pageW "9" [msgSeqA, msgSeqB, msgSeqC]
      (by decide) (by decide) (by decide)⟩,
   ⟨by decide,
    freshness_monotonicity.2.2 (some pageW) "1" [msgHelloFresh] 10
      (by decide) (by decide)⟩⟩

/-- C5: merging with a truthy `after` argument appends the incoming edges
after the existing ones and takes the whole pageInfo from the incoming page;
with no existing page the result is the incoming page verbatim. -/
theorem forward_page_merge :
    (∀ (ex incoming : MessagePage) (args : Option MergeArgs),
      jsTruthyStr (args.bind MergeArgs.after) = true →
        mergeMessagePages (some ex) incoming args =
          { edges := ex.edges ++ incoming.edges,
            pageInfo := incoming.pageInfo }) ∧
    (∀ (incoming : MessagePage) (args : Option MergeArgs),
      mergeMessagePages none incoming args = incoming) := by
  refine ⟨?_, fun incoming args => rfl⟩
  intro ex incoming args h
  simp [mergeMessagePages, h]

theorem forward_page_merge_witness :
    (jsTruthyStr (argsAfterW.bind MergeArgs.after) = true ∧
      mergeMessagePages (some pageA) pageB argsAfterW =
        { edges := pageA.edges ++ pageB.edges, pageInfo := pageB.pageInfo }) ∧
    mergeMessagePages none pageB argsAfterW = pageB :=
  ⟨⟨by decide, forward_page_merge.1 pageA pageB argsAfterW (by decide)⟩,
   forward_page_merge.2 pageB argsAfterW⟩

/-- C6: merging with a falsy `after` and a truthy `before` argument prepends
the incoming edges before the existing ones; `hasNextPage` and `endCursor`
come from the existing pageInfo, the other pageInfo fields from the incoming
page. -/
theorem backward_page_merge :
    ∀ (ex incoming : MessagePage) (args : Option MergeArgs),
      jsTruthyStr (args.bind MergeArgs.after) = false →
      jsTruthyStr (args.bind MergeArgs.before) = true →
        mergeMessagePages (some ex) incoming args =
          { edges := incoming.edges ++ ex.edges
            pageInfo := { hasNextPage := ex.pageInfo.hasNextPage
                          hasPreviousPage := incoming.pageInfo.hasPreviousPage
                          startCursor := incoming.pageInfo.startCursor
                          endCursor := ex.pageInfo.endCursor } } := by
  intro ex incoming args h1 h2
  simp [mergeMessagePages, h1, h2]

theorem backward_page_merge_witness :
    jsTruthyStr (argsBeforeW.bind MergeArgs.after) = false ∧
    jsTruthyStr (argsBeforeW.bind MergeArgs.before) = true ∧
    mergeMessagePages (some pageA) pageC argsBeforeW =
      { edges := pageC.edges ++ pageA.edges
        pageInfo := { hasNextPage := pageA.pageInfo.hasNextPage
                      hasPreviousPage := pageC.pageInfo.hasPreviousPage
                      startCursor := pageC.pageInfo.startCursor
                      endCursor := pageA.pageInfo.endCursor } } :=
  ⟨by decide, by decide,
   backward_page_merge pageA pageC argsBeforeW (by decide) (by decide)⟩

/-- C7, evaluated at the failing input: the `onMessageAdded` callback of
`useChat` never consults the sender, so a created-event from the local actor
(Admin) with the viewport away from the bottom still increments the counter
to 1, although the spec and the repository's own `useChat` test expect 0; the
reset on returning to the bottom does hold. -/
theorem newMessagesCount_sender_not_checked :
    msgAdminW.sender = MessageSender.Admin ∧
    (chatOnMessageAdded { isAtBottom := false, newMessagesCount := 0 }
        msgAdminW).newMessagesCount = 1 ∧
    (chatHandleAtBottomChange { isAtBottom := false, newMessagesCount := 1 }
        true).newMessagesCount = 0 := by
  decide

/-- C9: submitting text whose trimmed form is empty is a no-op in both
`useSendMessage.sendMessage` (returns null without invoking the mutation,
hence no store change) and `useChat.sendMessage` (returns without invoking
the send operation). -/
theorem empty_trim_send_noop :
    ∀ text : String, jsTrim text = "" →
      useSendMessageSend text = none ∧ chatSendMessage text = none := by
  intro text h
  constructor <;> simp [useSendMessageSend, chatSendMessage, h]

theorem empty_trim_send_noop_witness :
    jsTrim "   " = "" ∧ useSendMessageSend "   " = none ∧
      chatSendMessage "   " = none :=
  ⟨by decide, (empty_trim_send_noop "   " (by decide)).1,
   (empty_trim_send_noop "   " (by decide)).2⟩

/-- C8 counterexample: with message id 1 stored at instant 1, a created-event
carrying id 1 at the strictly newer instant 5 is ignored outright by the
wired created-stream handler (the page is returned unchanged), while the
updated-stream handler replaces the node as the timestamp rule dictates —
so the two streams do not resolve such an event identically. -/
theorem created_stream_ignores_fresher_duplicate :
    subsHandleNewMessage (some pageC8) msgNewOne = some pageC8 ∧
    subsHandleUpdatedMessage (some pageC8) msgNewOne ≠ some pageC8 ∧
    subsHandleNewMessage (some pageC8) msgNewOne ≠
      subsHandleUpdatedMessage (some pageC8) msgNewOne := by
  decide

/-- C8 amended: the lib/hooks dispatcher feeds both streams through
upsert-by-freshness; the wired updated-stream handler applies exactly the
timestamp rule (strictly older discarded, greater-or-equal replaces the node
in place); but the wired created-stream handler leaves the page unchanged
whenever the id is already present, regardless of timestamps. -/
theorem subscription_timestamp_rule :
    (∀ (cache : Option MessagePage) (m : Message),
      libSubsHandleNewMessage cache m = upsertMessageInCache cache m ∧
      libSubsHandleUpdatedMessage cache m = upsertMessageInCache cache m) ∧
    (∀ (page : MessagePage) (m : Message) (l1 : List MessageEdge)
        (e : MessageEdge) (l2 : List MessageEdge),
      page.edges = l1 ++ e :: l2 → (∀ x ∈ l1, x.node.id ≠ m.id) →
      e.node.id = m.id →
        (m.updatedAt < e.node.updatedAt →
          subsHandleUpdatedMessage (some page) m = some page) ∧
        (e.node.updatedAt ≤ m.updatedAt →
          subsHandleUpdatedMessage (some page) m =
            some { page with edges := l1 ++ { e with node := m } :: l2 })) ∧
    (∀ (page : MessagePage) (m : Message),
      (∃ e ∈ page.edges, e.node.id = m.id) →
        subsHandleNewMessage (some page) m = some page) := by
  refine ⟨fun cache m => ⟨rfl, rfl⟩, ?_, ?_⟩
  · intro page m l1 e l2 hedges hl1 he
    constructor
    · intro hlt
      have h2 : replaceFirstEdge m page.edges = page.edges := by
        rw [hedges, replaceFirstEdge_decomp m l1 e l2 hl1 he, if_pos hlt]
      rw [subsHandleUpdatedMessage_some, replaceFirstEdgeIdx_eq, h2]
    · intro hge
      have h2 : replaceFirstEdge m page.edges =
          l1 ++ { e with node := m } :: l2 := by
        rw [hedges, replaceFirstEdge_decomp m l1 e l2 hl1 he,
          if_neg (not_lt.mpr hge)]
      rw [subsHandleUpdatedMessage_some, replaceFirstEdgeIdx_eq, h2]
  · rintro page m ⟨e, he, hid⟩
    have hany : page.edges.any (fun e => e.node.id == m.id) = true := by
      rw [List.any_eq_true]
      exact ⟨e, he, by simp [hid]⟩
    simp [subsHandleNewMessage, hany]

theorem subscription_timestamp_rule_witness :
    (libSubsHandleNewMessage (some pageC8) msgNewOne =
      upsertMessageInCache (some pageC8) msgNewOne) ∧
    ((mkEdge msgOldOne).node.updatedAt ≤ msgNewOne.updatedAt ∧
      subsHandleUpdatedMessage (some pageC8) msgNewOne =
        some { pageC8 with
          edges := [] ++ { mkEdge msgOldOne with node := msgNewOne } :: [] }) ∧
    ((∃ e ∈ pageC8.edges, e.node.id = msgNewOne.id) ∧
      subsHandleNewMessage (some pageC8) msgNewOne = some pageC8) :=
  ⟨(subscription_timestamp_rule.1 (some pageC8) msgNewOne).1,
   ⟨by decide,
    (subscription_timestamp_rule.2.1 pageC8 msgNewOne [] (mkEdge msgOldOne) []
      (by decide) (by decide) (by decide)).2 (by decide)⟩,
   ⟨⟨mkEdge msgOldOne, by decide, by decide⟩,
    subscription_timestamp_rule.2.2 pageC8 msgNewOne
      ⟨mkEdge msgOldOne, by decide, by decide⟩⟩⟩

/-- C2 counterexample: with a non-temporary edge (id 7, text "hi") already in
the page, running eviction for "hi" followed by upsert of the confirmed
message (id 42, text "hi") yields two edges whose text is "hi", not exactly
one — the claim fails on stores where a permanent edge shares the submitted
text. -/
theorem temp_eviction_uniqueness_fails :
    (upsertMessageInCache (removeTempMessagesByText (some pagePermHi) "hi")
        msgConfirmedHi).map
      (fun p => (p.edges.filter (fun e => e.node.text == "hi")).length) =
      some 2 ∧
    (upsertMessageInCache (removeTempMessagesByText (some pagePermHi) "hi")
        msgConfirmedHi).map
      (fun p => (p.edges.filter (fun e => e.node.text == "hi")).length) ≠
      some 1 := by
  decide

/-- C2 amended: eviction removes exactly the temp edges carrying the
submitted text and touches no other edge; and for a store in which every
edge carrying the submitted text is temporary and no edge carries the
confirmed id, eviction followed by upsert of a confirmed (non-temp-id)
message with that text yields exactly one edge whose text is that text — the
confirmed one — and zero temp edges with that text. -/
theorem temp_eviction_exact :
    (∀ (page : MessagePage) (text : String),
      ∃ page', removeTempMessagesByText (some page) text = some page' ∧
        page'.edges = page.edges.filter (fun e => !(tempMatches text e))) ∧
    (∀ (page : MessagePage) (text : String) (confirmed : Message),
      (∀ e ∈ page.edges, e.node.text = text →
        jsStartsWith e.node.id "temp-" = true) →
      (∀ e ∈ page.edges, e.node.id ≠ confirmed.id) →
      confirmed.text = text →
      jsStartsWith confirmed.id "temp-" = false →
      ∃ page',
        upsertMessageInCache (removeTempMessagesByText (some page) text)
          confirmed = some page' ∧
        page'.edges.filter (fun e => e.node.text == text) =
          [mkEdge confirmed] ∧
        page'.edges.filter (tempMatches text) = []) := by
  constructor
  · intro page text
    rcases removeTemp_some page text with ⟨p1, hp1, _, hedges⟩
    exact ⟨p1, hp1, hedges⟩
  · intro page text confirmed h1 h2 h3 h4
    rcases removeTemp_some page text with ⟨p1, hp1, _, hedges⟩
    rw [hp1]
    have habs : ∀ e ∈ p1.edges, e.node.id ≠ confirmed.id := by
      intro e he
      rw [hedges] at he
      exact h2 e (List.mem_filter.mp he).1
    refine ⟨{ p1 with edges := p1.edges ++ [mkEdge confirmed] }, ?_, ?_, ?_⟩
    · rw [upsertMessageInCache_some, upsertEdgesIdx_eq,
        upsertEdges_of_absent confirmed p1.edges habs]
    · show (p1.edges ++ [mkEdge confirmed]).filter
        (fun e => e.node.text == text) = [mkEdge confirmed]
      rw [List.filter_append]
      have hnil : p1.edges.filter (fun e => e.node.text == text) = [] := by
        rw [List.filter_eq_nil_iff]
        intro e he
        rw [hedges] at he
        rcases List.mem_filter.mp he with ⟨hmem, hkeep⟩
        intro htext
        have htext' : e.node.text = text := by simpa using htext
        have htemp := h1 e hmem htext'
        simp [tempMatches, htemp, htext'] at hkeep
      rw [hnil]
      simp [mkEdge, h3]
    · show (p1.edges ++ [mkEdge confirmed]).filter (tempMatches text) = []
      rw [List.filter_append]
      have hnil : p1.edges.filter (tempMatches text) = [] := by
        rw [List.filter_eq_nil_iff]
        intro e he
        rw [hedges] at he
        rcases List.mem_filter.mp he with ⟨_, hkeep⟩
        simp only [Bool.not_eq_true'] at hkeep
        simp [hkeep]
      rw [hnil]
      simp [tempMatches, mkEdge, h4]

theorem temp_eviction_exact_witness :
    (∃ page', removeTempMessagesByText (some pageTempHi) "hi" = some page' ∧
      page'.edges =
        pageTempHi.edges.filter (fun e => !(tempMatches "hi" e))) ∧
    ((∀ e ∈ pageTempHi.edges, e.node.text = "hi" →
        jsStartsWith e.node.id "temp-" = true) ∧
      (∀ e ∈ pageTempHi.edges, e.node.id ≠ msgConfirmedHi.id) ∧
      msgConfirmedHi.text = "hi" ∧
      jsStartsWith msgConfirmedHi.id "temp-" = false ∧
      ∃ page',
        upsertMessageInCache (removeTempMessagesByText (some pageTempHi) "hi")
          msgConfirmedHi = some page' ∧
        page'.edges.filter (fun e => e.node.text == "hi") =
          [mkEdge msgConfirmedHi] ∧
        page'.edges.filter (tempMatches "hi") = []) :=
  ⟨temp_eviction_exact.1 pageTempHi "hi",
   ⟨by decide, by decide, by decide, by decide,
    temp_eviction_exact.2 pageTempHi "hi" msgConfirmedHi
      (by decide) (by decide) (by decide) (by decide)⟩⟩

/-- C10: frame property of the single-record operations.  Upsert preserves
the pageInfo and every edge with a different id, in order, and either leaves
the edges unchanged, appends exactly one edge at the end, or modifies exactly
one edge in place; temp eviction preserves the pageInfo and every
non-matching edge in order, and performs no write when no edge matches or
when the store is absent. -/
theorem single_record_frame :
    (∀ (page : MessagePage) (m : Message),
      ∃ page', upsertMessageInCache (some page) m = some page' ∧
        page'.pageInfo = page.pageInfo ∧
        page'.edges.filter (fun e => !(e.node.id == m.id)) =
          page.edges.filter (fun e => !(e.node.id == m.id)) ∧
        (page'.edges = page.edges ∨
         page'.edges = page.edges ++ [mkEdge m] ∨
         ∃ l1 e l2, page.edges = l1 ++ e :: l2 ∧
           page'.edges = l1 ++ { e with node := m } :: l2)) ∧
    (∀ (page : MessagePage) (text : String),
      ∃ page', removeTempMessagesByText (some page) text = some page' ∧
        page'.pageInfo = page.pageInfo ∧
        page'.edges = page.edges.filter (fun e => !(tempMatches text e))) ∧
    (∀ (page : MessagePage) (text : String),
      (∀ e ∈ page.edges, tempMatches text e = false) →
        removeTempMessagesByText (some page) text = some page ∧
        removeTempWrites (some page) text = false) ∧
    (∀ (m : Message) (text : String),
      upsertMessageInCache none m = none ∧
      removeTempMessagesByText none text = none ∧
      removeTempWrites none text = false) := by
  refine ⟨?_, ?_, ?_, fun m text => ⟨rfl, rfl, rfl⟩⟩
  · intro page m
    refine ⟨{ page with edges := upsertEdges m page.edges },
      by rw [upsertMessageInCache_some, upsertEdgesIdx_eq], rfl,
      upsertEdges_filter_ne m page.edges, ?_⟩
    rcases exists_first_match (fun e => e.node.id == m.id) page.edges with
      hall | ⟨l1, e, l2, heq, hl1, he⟩
    · refine Or.inr (Or.inl ?_)
      show upsertEdges m page.edges = page.edges ++ [mkEdge m]
      exact upsertEdges_of_absent m page.edges
        (fun e hmem => by simpa using hall e hmem)
    · have he' : e.node.id = m.id := by simpa using he
      have hl1' : ∀ x ∈ l1, x.node.id ≠ m.id :=
        fun x hx => by simpa using hl1 x hx
      by_cases hlt : m.updatedAt < e.node.updatedAt
      · refine Or.inl ?_
        show upsertEdges m page.edges = page.edges
        rw [heq, upsertEdges_decomp m l1 e l2 hl1' he', if_pos hlt]
      · refine Or.inr (Or.inr ⟨l1, e, l2, heq, ?_⟩)
        show upsertEdges m page.edges = l1 ++ { e with node := m } :: l2
        rw [heq, upsertEdges_decomp m l1 e l2 hl1' he', if_neg hlt]
  · intro page text
    exact removeTemp_some page text
  · intro page text hall
    have hfilter : page.edges.filter (fun e => !(tempMatches text e)) =
        page.edges :=
      List.filter_eq_self.mpr (fun e he => by simp [hall e he])
    exact ⟨by simp [removeTempMessagesByText, hfilter],
      by simp [removeTempWrites, hfilter]⟩

theorem single_record_frame_witness :
    (∃ page', upsertMessageInCache (some pageW) msgHelloFresh = some page' ∧
      page'.pageInfo = pageW.pageInfo ∧
      page'.edges.filter (fun e => !(e.node.id == msgHelloFresh.id)) =
        pageW.edges.filter (fun e => !(e.node.id == msgHelloFresh.id)) ∧
      (page'.edges = pageW.edges ∨
       page'.edges = pageW.edges ++ [mkEdge msgHelloFresh] ∨
       ∃ l1 e l2, pageW.edges = l1 ++ e :: l2 ∧
         page'.edges = l1 ++ { e with node := msgHelloFresh } :: l2)) ∧
    (∃ page', removeTempMessagesByText (some pageTempHi) "hi" = some page' ∧
      page'.pageInfo = pageTempHi.pageInfo ∧
      page'.edges =
        pageTempHi.edges.filter (fun e => !(tempMatches "hi" e))) ∧
    ((∀ e ∈ pageW.edges, tempMatches "hi" e = false) ∧
      removeTempMessagesByText (some pageW) "hi" = some pageW ∧
      removeTempWrites (some pageW) "hi" = false) ∧
    (upsertMessageInCache none msgHelloFresh = none ∧
      removeTempMessagesByText none "hi" = none ∧
      removeTempWrites none "hi" = false) :=
  ⟨single_record_frame.1 pageW msgHelloFresh,
   single_record_frame.2.1 pageTempHi "hi",
   ⟨by decide, single_record_frame.2.2.1 pageW "hi" (by decide)⟩,
   single_record_frame.2.2.2 msgHelloFresh "hi"⟩
